import Mathlib

set_option linter.unusedSectionVars false
set_option linter.unusedVariables false

/-!
Verification of the rusty-machine learning core: the feed-forward neural
network (`src/learning/nnet.rs`) and the logistic regressor
(`src/learning/logistic_reg.rs`).

The dense matrix library (rulinalg) is consumed by the source as an external
capability; it is modelled here by a row-major `Mat` structure over a field,
with the operations the source uses: `hcat`, `mul`, `transpose`, `elemul`,
`apply`, `select_cols`, `select_rows`, `ones`, `into_vec`.
-/

namespace RustyMachine

/-- Modelled from the spec: a dense row-major matrix, as provided by the
external linear-algebra capability (spec section 6).  `data` is the row-major
flattening, as in rulinalg's `Matrix` (a rows/cols pair plus a flat `Vec`). -/
structure Mat (α : Type) where
  rows : ℕ
  cols : ℕ
  data : List α
deriving DecidableEq

instance {α : Type} : Inhabited (Mat α) := ⟨⟨0, 0, []⟩⟩

variable {α : Type} [Field α]

/-- Modelled from the spec: reading one entry of a row-major matrix
(out-of-range reads default to 0; all verified uses are in range). -/
def Mat.entry (m : Mat α) (i j : ℕ) : α := m.data.getD (i * m.cols + j) 0

/-- Well-formedness of a matrix: the flat data has exactly rows*cols items. -/
def Mat.wf (m : Mat α) : Prop := m.data.length = m.rows * m.cols

/-- Modelled from the spec: `Matrix::ones(r, c)`. -/
def Mat.ones (r c : ℕ) : Mat α := ⟨r, c, List.replicate (r * c) 1⟩

/-- Modelled from the spec: `Matrix::apply`, the element-wise map. -/
def Mat.apply (m : Mat α) (f : α → α) : Mat α := ⟨m.rows, m.cols, m.data.map f⟩

/-- Row-major flattening of an entry function: row i, then row i+1, ... -/
def rowMajor (r c : ℕ) (f : ℕ → ℕ → α) : List α :=
  (List.range r).flatMap (fun i => (List.range c).map (f i))

/-- Modelled from the spec: `Matrix::transpose`. -/
def Mat.transpose (m : Mat α) : Mat α :=
  ⟨m.cols, m.rows, rowMajor m.cols m.rows (fun j i => m.entry i j)⟩

/-- Modelled from the spec: the matrix product `a * b`. -/
def Mat.mul (a b : Mat α) : Mat α :=
  ⟨a.rows, b.cols, rowMajor a.rows b.cols (fun i j =>
    ((List.range a.cols).map (fun t => a.entry i t * b.entry t j)).sum)⟩

/-- Modelled from the spec: `Matrix::hcat`, horizontal concatenation. -/
def Mat.hcat (a b : Mat α) : Mat α :=
  ⟨a.rows, a.cols + b.cols, rowMajor a.rows (a.cols + b.cols) (fun i j =>
    if j < a.cols then a.entry i j else b.entry i (j - a.cols))⟩

/-- Modelled from the spec: `Matrix::elemul`, the element-wise product. -/
def Mat.elemul (a b : Mat α) : Mat α :=
  ⟨a.rows, a.cols, List.zipWith (· * ·) a.data b.data⟩

/-- Modelled from the spec: element-wise difference of two matrices. -/
def Mat.sub (a b : Mat α) : Mat α :=
  ⟨a.rows, a.cols, List.zipWith (· - ·) a.data b.data⟩

/-- Modelled from the spec: `Matrix::select_cols`. -/
def Mat.select_cols (m : Mat α) (idxs : List ℕ) : Mat α :=
  ⟨m.rows, idxs.length, (List.range m.rows).flatMap (fun i => idxs.map (fun j => m.entry i j))⟩

/-- Modelled from the spec: `Matrix::select_rows`. -/
def Mat.select_rows (m : Mat α) (idxs : List ℕ) : Mat α :=
  ⟨idxs.length, m.cols, idxs.flatMap (fun i => (List.range m.cols).map (fun j => m.entry i j))⟩

/-- Modelled from the spec: division of a matrix by a scalar. -/
def Mat.divScalar (m : Mat α) (s : α) : Mat α := m.apply (· / s)

/-- Modelled from the spec: `Matrix::into_vec`, the row-major flattening. -/
def Mat.into_vec (m : Mat α) : List α := m.data

/-- Modelled from the spec: `Matrix * Vector` (rulinalg matrix-vector product). -/
def matVec (m : Mat α) (v : List α) : List α :=
  (List.range m.rows).map (fun i => ((List.range m.cols).map (fun t => m.entry i t * v.getD t 0)).sum)

/-- Modelled from the spec: element-wise difference of two vectors. -/
def vecSub (a b : List α) : List α := List.zipWith (· - ·) a b

/-- Size of the flat-vector slice of layer `l` of topology `topo`:
`(topo[l] + 1) * topo[l + 1]`, as accumulated by the loops of
`NeuralNet::get_layer_weights` (nnet.rs lines 138-150). -/
def layerSize (topo : List ℕ) (l : ℕ) : ℕ :=
  (topo.getD l 0 + 1) * topo.getD (l + 1) 0

/-- Start offset of the flat-vector slice of layer `idx`: the `start`
accumulated by the loop at nnet.rs lines 144-148. -/
def lstart (topo : List ℕ) (idx : ℕ) : ℕ :=
  ∑ l ∈ Finset.range idx, layerSize topo l

/-- Total flat parameter vector length: the `full_size` accumulated by the
loop at nnet.rs lines 137-140. -/
def fullSize (topo : List ℕ) : ℕ :=
  ∑ l ∈ Finset.range (topo.length - 1), layerSize topo l

/-- The weight-matrix view of layer `idx` (nnet.rs `get_layer_weights`,
lines 133-164): a `(topo[idx]+1) x topo[idx+1]` matrix copied out of
`weights[start .. start+capacity]`.  The two `assert!`s of the source
(`idx < len-1` and `full_size = weights.len()`) appear as hypotheses of the
theorems about this function (and as explicit checks in `glwE`). -/
def get_layer_weights (topo : List ℕ) (w : List α) (idx : ℕ) : Mat α :=
  ⟨topo.getD idx 0 + 1, topo.getD (idx + 1) 0, (w.drop (lstart topo idx)).take (layerSize topo idx)⟩

/-- A criterion pairs an activation strategy with a cost strategy
(nnet.rs `Criterion` trait, lines 338-367).  The concrete activation and
cost functions live outside the given sources, so they are abstract fields
here. -/
structure Criterion (α : Type) where
  actFunc : α → α
  actGradFunc : α → α
  costFunc : Mat α → Mat α → α
  costGradFunc : Mat α → Mat α → Mat α

/-- Criterion method `activate` (nnet.rs lines 345-347): element-wise map of
the activation function. -/
def Criterion.activate (c : Criterion α) (m : Mat α) : Mat α := m.apply c.actFunc

/-- Criterion method `grad_activ` (nnet.rs lines 350-352). -/
def Criterion.grad_activ (c : Criterion α) (m : Mat α) : Mat α := m.apply c.actGradFunc

/-- Criterion method `cost` (nnet.rs lines 357-359). -/
def Criterion.cost (c : Criterion α) (o t : Mat α) : α := c.costFunc o t

/-- Criterion method `cost_grad` (nnet.rs lines 364-366). -/
def Criterion.cost_grad (c : Criterion α) (o t : Mat α) : Mat α := c.costGradFunc o t

/-- Contract of the cost-gradient strategy (spec section 4.4): the
cost-function gradient has the shape of the predicted matrix. -/
def costGradShape (c : Criterion α) : Prop :=
  ∀ o t : Mat α, (c.cost_grad o t).rows = o.rows ∧ (c.cost_grad o t).cols = o.cols

/-- Modelled from the spec: stochastic gradient descent configuration
(spec section 4.6; the source type `StochasticGD` is not among the given
sources): learning rate, epoch count, minibatch size. -/
structure StochasticGD (α : Type) where
  alpha : α
  epochs : ℕ
  bsize : ℕ

/-- Modelled from the spec: batch gradient descent configuration
(spec section 4.5; the source type `GradientDesc` is not among the given
sources): learning rate and fixed iteration count. -/
structure GradientDesc (α : Type) where
  alpha : α
  iters : ℕ

/-- The neural network (nnet.rs lines 45-50): topology, flat weight vector,
optimizer configuration, criterion. -/
structure NeuralNet (α : Type) where
  layer_sizes : List ℕ
  weights : List α
  gd : StochasticGD α
  criterion : Criterion α

/-- The logistic regression model (logistic_reg.rs lines 51-55): optional
parameter vector plus optimizer configuration. -/
structure LogisticRegressor (α : Type) where
  parameters : Option (List α)
  gd : GradientDesc α

/-- Constructor `LogisticRegressor::new` / `default` (logistic_reg.rs lines
57-82): the parameters start absent. -/
def LogisticRegressor.new (gd : GradientDesc α) : LogisticRegressor α := ⟨none, gd⟩

/-- The bias-augmented input `net_data` (nnet.rs lines 219 and 291): a ones
column prepended to the inputs. -/
def netData (X : Mat α) : Mat α := (Mat.ones X.rows 1).hcat X

/-- Bias augmentation of an intermediate matrix: a ones column prepended,
as in nnet.rs lines 230-232 and 257-258. -/
def aug (m : Mat α) : Mat α := (Mat.ones m.rows 1).hcat m

/-- State of the forward-propagation loop of `compute_grad` (nnet.rs lines
223-240) after `m` iterations of `for l in 1..k-1`: the `activations` list,
the `forward_weights` list, and the current pre-activation `z`.  Iteration
`m+1` is loop index `l = m+1`. -/
def fwdLoop (c : Criterion α) (topo : List ℕ) (w : List α) (X : Mat α) :
    ℕ → List (Mat α) × List (Mat α) × Mat α
  | 0 =>
      ([netData X], [(netData X).mul (get_layer_weights topo w 0)],
        (netData X).mul (get_layer_weights topo w 0))
  | m + 1 =>
      let st := fwdLoop c topo w X m
      let act := c.activate st.2.2
      let a := (Mat.ones act.rows 1).hcat act
      let z := a.mul (get_layer_weights topo w (m + 1))
      (st.1 ++ [a], st.2.1 ++ [z], z)

/-- The cached `activations` list of `compute_grad` (nnet.rs lines 217-240):
the bias-augmented activations entering each layer, then the final
activation. -/
def activationsL (c : Criterion α) (topo : List ℕ) (w : List α) (X : Mat α) : List (Mat α) :=
  (fwdLoop c topo w X (topo.length - 2)).1
    ++ [c.activate (fwdLoop c topo w X (topo.length - 2)).2.2]

/-- The cached `forward_weights` list of `compute_grad` (nnet.rs lines
216-240): the pre-activation of each layer. -/
def forwardWeightsL (c : Criterion α) (topo : List ℕ) (w : List α) (X : Mat α) : List (Mat α) :=
  (fwdLoop c topo w X (topo.length - 2)).2.1

/-- The output-layer error signal (nnet.rs lines 245-251): the element-wise
product of the cost gradient at the final activation and the activation
gradient at the output pre-activation. -/
def outDelta (c : Criterion α) (topo : List ℕ) (w : List α) (X T : Mat α) : Mat α :=
  (c.cost_grad ((activationsL c topo w X).getD (topo.length - 1) default) T).elemul
    (c.grad_activ ((forwardWeightsL c topo w X).getD (topo.length - 2) default))

/-- The backward-propagation loop of `compute_grad` (nnet.rs lines 255-266),
transcribed as a countdown: calling it with first argument `l+1` performs the
iteration of `for l in (1..k-1).rev()` with loop index `l+1` (which reads
`forward_weights[l]` and the layer-`l+1` weights), pushes the stripped delta,
and recurses. -/
def backLoop (c : Criterion α) (topo : List ℕ) (w : List α) (fws : List (Mat α)) :
    ℕ → Mat α → List (Mat α) → List (Mat α)
  | 0, _, acc => acc
  | l + 1, delta, acc =>
      let zz := fws.getD l default
      let z := (Mat.ones zz.rows 1).hcat zz
      let g := z.apply c.actGradFunc
      let d1 := (delta.mul ((get_layer_weights topo w (l + 1)).transpose)).elemul g
      let d2 := d1.select_cols (List.range' 1 (d1.cols - 1))
      backLoop c topo w fws l d2 (acc ++ [d2])

/-- The `deltas` list of `compute_grad` (nnet.rs lines 242-267): the output
delta followed by the stripped back-propagated deltas, in push order. -/
def deltasL (c : Criterion α) (topo : List ℕ) (w : List α) (X T : Mat α) : List (Mat α) :=
  backLoop c topo w (forwardWeightsL c topo w X) (topo.length - 2)
    (outDelta c topo w X T) [outDelta c topo w X T]

/-- The per-layer gradient blocks of `compute_grad` (nnet.rs lines 269-276):
`deltas[k-2-l]^T * activations[l]`, divided by the input row count. -/
def gradBlocksL (c : Criterion α) (topo : List ℕ) (w : List α) (X T : Mat α) : List (Mat α) :=
  (List.range (topo.length - 1)).map (fun l =>
    (((deltasL c topo w X T).getD (topo.length - 2 - l) default).transpose.mul
      ((activationsL c topo w X).getD l default)).divScalar (X.rows : α))

/-- Backpropagation (`NeuralNet::compute_grad`, nnet.rs lines 209-285):
returns the scalar cost at the final activations and the concatenated flat
gradient.  The `assert_eq!(inputs.cols(), self.layer_sizes[0])` of line 214
appears as a hypothesis of the theorems about this function (and as an
explicit check in `compute_gradE`). -/
def NeuralNet.compute_grad (net : NeuralNet α) (w : List α) (X T : Mat α) : α × List α :=
  let acts := activationsL net.criterion net.layer_sizes w X
  (net.criterion.cost (acts.getD (acts.length - 1) default) T,
    ((gradBlocksL net.criterion net.layer_sizes w X T).map Mat.into_vec).flatten)

/-- The loop of `NeuralNet::forward_prop` (nnet.rs lines 288-304) after `m`
iterations of `for l in 1..k-1`: the current activation `a`.  Iteration `m+1`
is loop index `l = m+1`. -/
def fwdPropLoop (c : Criterion α) (topo : List ℕ) (w : List α) (X : Mat α) : ℕ → Mat α
  | 0 => c.activate ((netData X).mul (get_layer_weights topo w 0))
  | m + 1 =>
      let a := fwdPropLoop c topo w X m
      c.activate (((Mat.ones a.rows 1).hcat a).mul (get_layer_weights topo w (m + 1)))

/-- Forward propagation (`NeuralNet::forward_prop`, nnet.rs lines 288-304),
using the model's stored weights.  The `assert_eq!` of line 289 appears as a
hypothesis of the theorems about this function. -/
def NeuralNet.forward_prop (net : NeuralNet α) (X : Mat α) : Mat α :=
  fwdPropLoop net.criterion net.layer_sizes net.weights X (net.layer_sizes.length - 2)

/-- Source `NeuralNet::predict` (nnet.rs lines 323-325): forward propagation with
the stored weights; it is total and performs no trained/untrained check. -/
def NeuralNet.predict (net : NeuralNet α) (X : Mat α) : Mat α := net.forward_prop X

/-- Modelled from the spec: one parameter update `param -= lr * grad`
(spec sections 4.5-4.6). -/
def descStep (alpha : α) (p g : List α) : List α :=
  List.zipWith (fun pi gi => pi - alpha * gi) p g

/-- Modelled from the spec: the fixed-iteration loop of batch gradient
descent (spec section 4.5). -/
def gdLoop (step : List α → List α) : ℕ → List α → List α
  | 0, p => p
  | n + 1, p => gdLoop step n (step p)

/-- Modelled from the spec: `GradientDesc::optimize` (spec section 4.5):
iterate the full-batch update a fixed number of times from the given start,
with `f` the model's cost/gradient function on the full data. -/
def GradientDesc.optimize (gd : GradientDesc α) (f : List α → α × List α)
    (start : List α) : List α :=
  gdLoop (fun p => descStep gd.alpha p (f p).2) gd.iters start

/-- Modelled from the spec: partition a shuffled index list into minibatches
of size `b`, the final partial batch included (spec section 4.6).  The first
argument is recursion fuel, always instantiated with the list length. -/
def chunksGo (b : ℕ) : ℕ → List ℕ → List (List ℕ)
  | 0, _ => []
  | _ + 1, [] => []
  | fuel + 1, l => l.take b :: chunksGo b fuel (l.drop b)

/-- Modelled from the spec: `StochasticGD::optimize` (spec section 4.6): per
epoch, shuffle the row order, partition into minibatches, one descent update
per minibatch.  The shuffle is an injected deterministic source (spec
section 5: the ambient generator must be substitutable). -/
def StochasticGD.optimize (gd : StochasticGD α) (shuffle : ℕ → List ℕ → List ℕ)
    (f : List α → Mat α → Mat α → α × List α) (start : List α) (X T : Mat α) : List α :=
  (List.range gd.epochs).foldl (fun params e =>
    (chunksGo gd.bsize (shuffle e (List.range X.rows)).length (shuffle e (List.range X.rows))).foldl
      (fun p batch => descStep gd.alpha p (f p (X.select_rows batch) (T.select_rows batch)).2)
      params) start

/-- Modelled from the spec: the identity shuffle, one valid instantiation of
the injected random source. -/
def shuffleId : ℕ → List ℕ → List ℕ := fun _ l => l

/-- Source `NeuralNet::train` (nnet.rs lines 328-332): the optimizer is started from
a clone of the CURRENT stored weights (`let start = self.weights.clone()`),
and the stored weights are replaced by its output. -/
def NeuralNet.train (shuffle : ℕ → List ℕ → List ℕ) (net : NeuralNet α) (X T : Mat α) :
    NeuralNet α :=
  { net with weights := (net.gd.optimize shuffle
      (fun p Xb Tb => NeuralNet.compute_grad net p Xb Tb) net.weights X T) }

/-- Source `LogisticRegressor::compute_grad` (logistic_reg.rs lines 142-155), with
the external `Sigmoid::func` and `CrossEntropyError::cost` as abstract
strategy arguments `sig` and `cE`: outputs are `sig` applied to `X * beta`,
the cost is `cE outputs targets`, and the gradient is
`X^T * (outputs - targets) / rows`. -/
def LogisticRegressor.compute_grad (sig : α → α) (cE : List α → List α → α)
    (params : List α) (X : Mat α) (y : List α) : α × List α :=
  let out := (matVec X params).map sig
  (cE out y, (matVec X.transpose (vecSub out y)).map (· / (X.rows : α)))

/-- Source `LogisticRegressor::train` (logistic_reg.rs lines 114-122): bias-augment
the inputs, start the optimizer from the fixed vector `[0.5; cols]`, and
store the optimizer's output as the parameters. -/
def LogisticRegressor.train (sig : α → α) (cE : List α → List α → α)
    (m : LogisticRegressor α) (X : Mat α) (y : List α) : LogisticRegressor α :=
  let full := (Mat.ones X.rows 1).hcat X
  let init := List.replicate full.cols ((1 : α) / 2)
  { m with parameters := some (m.gd.optimize
      (fun p => LogisticRegressor.compute_grad sig cE p full y) init) }

/-- Source `LogisticRegressor::predict` (logistic_reg.rs lines 127-135): `none`
models the `panic!("Model has not been trained.")` branch taken when the
parameters are absent. -/
def LogisticRegressor.predict (sig : α → α) (m : LogisticRegressor α) (X : Mat α) :
    Option (List α) :=
  match m.parameters with
  | none => none
  | some v => some ((matVec ((Mat.ones X.rows 1).hcat X) v).map sig)

/-- The bias-augmented activation entering layer `l` (the matrix the forward
loop of `compute_grad` pushes onto `activations` as entry `l`), defined by
direct recursion on the layer index. -/
def hidAct (c : Criterion α) (topo : List ℕ) (w : List α) (X : Mat α) : ℕ → Mat α
  | 0 => netData X
  | l + 1 =>
      let z := (hidAct c topo w X l).mul (get_layer_weights topo w l)
      let act := c.activate z
      (Mat.ones act.rows 1).hcat act

/-- The pre-activation leaving layer `l` (entry `l` of `forward_weights`). -/
def preW (c : Criterion α) (topo : List ℕ) (w : List α) (X : Mat α) (l : ℕ) : Mat α :=
  (hidAct c topo w X l).mul (get_layer_weights topo w l)

/-- Strip the bias column: keep columns `1..cols`, as nnet.rs lines 263-264. -/
def stripBias (m : Mat α) : Mat α := m.select_cols (List.range' 1 (m.cols - 1))

/-- The `j`-th delta pushed by the backward loop (position `j` of `deltas`),
defined by direct recursion: position 0 is the output delta, and position
`j+1` back-propagates position `j` through the layer-`(k-2-j)` weights and
the activation gradient at the bias-augmented pre-activation of the previous
layer, stripping the bias column. -/
def deltaRec (c : Criterion α) (topo : List ℕ) (w : List α) (X T : Mat α) : ℕ → Mat α
  | 0 => outDelta c topo w X T
  | j + 1 =>
      let pd := deltaRec c topo w X T j
      stripBias ((pd.mul ((get_layer_weights topo w (topo.length - 2 - j)).transpose)).elemul
        (c.grad_activ (aug (preW c topo w X (topo.length - 3 - j)))))

/-- Source `NeuralNet::initialize_weights` (nnet.rs lines 118-130) for one layer:
`l_in * l_out` draws `w = rand * 2 * eps - eps` with
`eps = sqrt(6 / (l_in + l_out))`.  The ambient `thread_rng` stream of
`gen_range(0, 1)` draws is modelled by the injected function `rand`
(spec section 5: the generator must be substitutable). -/
noncomputable def init_layer_weights (l_in l_out : ℕ) (rand : ℕ → ℝ) : List ℝ :=
  (List.range (l_in * l_out)).map (fun i =>
    rand i * 2 * Real.sqrt (6 / ((l_in + l_out : ℕ) : ℝ)) - Real.sqrt (6 / ((l_in + l_out : ℕ) : ℝ)))

/-- Source `NeuralNet::create_weights` (nnet.rs lines 103-115): the per-layer blocks
`initialize_weights(topo[l] + 1, topo[l+1])` appended in topology order.  The
sequentially consumed ambient random stream is modelled by offsetting `rand`
by the number of draws consumed by the earlier layers. -/
noncomputable def create_weights (topo : List ℕ) (rand : ℕ → ℝ) : List ℝ :=
  ((List.range (topo.length - 1)).map (fun l =>
    init_layer_weights (topo.getD l 0 + 1) (topo.getD (l + 1) 0)
      (fun i => rand (lstart topo l + i)))).flatten

/-- Source `NeuralNet::new` (nnet.rs lines 93-100): store the topology, create the
initial weights, and store the optimizer configuration and criterion.
(`NeuralNet::default`, lines 66-73, is `new` with the `BCECriterion` and the
default `StochasticGD`.) -/
noncomputable def NeuralNet.new (topo : List ℕ) (rand : ℕ → ℝ) (gd : StochasticGD ℝ) (c : Criterion ℝ) :
    NeuralNet ℝ :=
  ⟨topo, create_weights topo rand, gd, c⟩

/-- Failure kinds of the checked embedding: the `assert_eq!` at the top of
`NeuralNet::compute_grad` (nnet.rs line 214), the `assert!`s of
`get_layer_weights` (lines 134-142), and a dimension panic raised inside the
external matrix library (spec section 6: its operations are dimension-checked
and error-raising). -/
inductive NNErr : Type
  | dimAssert : NNErr
  | weightsAssert : NNErr
  | matDim : NNErr
deriving DecidableEq

/-- Modelled from the spec: dimension-checked horizontal concatenation. -/
def Mat.hcatE (a b : Mat α) : Except NNErr (Mat α) :=
  if a.rows = b.rows then .ok (a.hcat b) else .error .matDim

/-- Modelled from the spec: dimension-checked matrix product. -/
def Mat.mulE (a b : Mat α) : Except NNErr (Mat α) :=
  if a.cols = b.rows then .ok (a.mul b) else .error .matDim

/-- Modelled from the spec: dimension-checked element-wise product. -/
def Mat.elemulE (a b : Mat α) : Except NNErr (Mat α) :=
  if a.rows = b.rows ∧ a.cols = b.cols then .ok (a.elemul b) else .error .matDim

/-- Source `get_layer_weights` with its two `assert!`s (nnet.rs lines 134 and 142)
made explicit. -/
def glwE (topo : List ℕ) (w : List α) (idx : ℕ) : Except NNErr (Mat α) :=
  if idx < topo.length - 1 ∧ w.length = fullSize topo then
    .ok (get_layer_weights topo w idx)
  else .error .weightsAssert

/-- A criterion whose cost and cost-gradient strategies may raise dimension
errors, as the external cost functions do on mismatched shapes. -/
structure CriterionE (α : Type) where
  actFunc : α → α
  actGradFunc : α → α
  costFunc : Mat α → Mat α → Except NNErr α
  costGradFunc : Mat α → Mat α → Except NNErr (Mat α)

/-- The forward-propagation loop of `compute_grad` in the checked embedding
(compare `fwdLoop`). -/
def fwdLoopE (c : CriterionE α) (topo : List ℕ) (w : List α) (X : Mat α) :
    ℕ → Except NNErr (List (Mat α) × List (Mat α) × Mat α)
  | 0 => do
      let nd ← (Mat.ones X.rows 1).hcatE X
      let w0 ← glwE topo w 0
      let z ← nd.mulE w0
      pure ([nd], [z], z)
  | m + 1 => do
      let st ← fwdLoopE c topo w X m
      let act := st.2.2.apply c.actFunc
      let a ← (Mat.ones act.rows 1).hcatE act
      let wl ← glwE topo w (m + 1)
      let z ← a.mulE wl
      pure (st.1 ++ [a], st.2.1 ++ [z], z)

/-- The backward-propagation loop of `compute_grad` in the checked embedding
(compare `backLoop`). -/
def backLoopE (c : CriterionE α) (topo : List ℕ) (w : List α) (fws : List (Mat α)) :
    ℕ → Mat α → List (Mat α) → Except NNErr (List (Mat α))
  | 0, _, acc => pure acc
  | l + 1, delta, acc => do
      let zz := fws.getD l default
      let z ← (Mat.ones zz.rows 1).hcatE zz
      let g := z.apply c.actGradFunc
      let wl ← glwE topo w (l + 1)
      let d1 ← delta.mulE wl.transpose
      let d1 ← d1.elemulE g
      let d2 := d1.select_cols (List.range' 1 (d1.cols - 1))
      backLoopE c topo w fws l d2 (acc ++ [d2])

/-- Source `NeuralNet::compute_grad` in the checked embedding: the entry
`assert_eq!(inputs.cols(), self.layer_sizes[0])` of nnet.rs line 214 is the
first check; every later failure comes from an `assert!` of
`get_layer_weights` or from a dimension check inside a matrix operation
during propagation.  The code performs no target-shape or row-count check of
its own. -/
def compute_gradE (c : CriterionE α) (topo : List ℕ) (w : List α) (X T : Mat α) :
    Except NNErr (α × List α) :=
  if X.cols = topo.getD 0 0 then do
    let st ← fwdLoopE c topo w X (topo.length - 2)
    let acts := st.1 ++ [st.2.2.apply c.actFunc]
    let fws := st.2.1
    let g := (fws.getD (topo.length - 2) default).apply c.actGradFunc
    let cg ← c.costGradFunc (acts.getD (topo.length - 1) default) T
    let d0 ← cg.elemulE g
    let deltas ← backLoopE c topo w fws (topo.length - 2) d0 [d0]
    let blocks ← (List.range (topo.length - 1)).mapM (fun l => do
      let b ← ((deltas.getD (topo.length - 2 - l) default).transpose).mulE
        (acts.getD l default)
      pure (b.divScalar (X.rows : α)))
    let cost ← c.costFunc (acts.getD (acts.length - 1) default) T
    pure (cost, (blocks.map Mat.into_vec).flatten)
  else .error .dimAssert

/-- A concrete rational criterion used for counterexamples and witnesses:
identity activation with constant activation gradient 1, zero cost, and the
identity as cost gradient.  (The `Criterion` trait places no constraint on
the strategies; `MSECriterion` uses the identity activation.) -/
def critIdQ : Criterion ℚ := ⟨id, fun _ => 1, fun _ _ => 0, fun o _ => o⟩

/-- The same concrete criterion over the reals. -/
def critIdR : Criterion ℝ := ⟨id, fun _ => 1, fun _ _ => 0, fun o _ => o⟩

/-- A concrete one-layer network over ℚ: topology `[1, 1]`, stored weights
`[1, 0]`, stochastic gradient descent with learning rate 1, one epoch and
batch size 1. -/
def netC2 : NeuralNet ℚ := ⟨[1, 1], [1, 0], ⟨1, 1, 1⟩, critIdQ⟩

/-- A freshly constructed default-style network over ℝ: topology `[1, 1]`,
weights drawn by `create_weights` from the constant-1/2 random stream. -/
noncomputable def netC1 : NeuralNet ℝ :=
  NeuralNet.new [1, 1] (fun _ => (1 : ℝ) / 2) ⟨1, 1, 1⟩ critIdR

/-- Concrete witness data: the flat weight vector of a `[1, 2, 1]` network
(length `(1+1)*2 + (2+1)*1 = 7`). -/
def wW : List ℚ := [1, 1, 1, 1, 1, 1, 1]

/-- Concrete witness data: a `[1, 2, 1]` network over ℚ with all-one
weights. -/
def netW : NeuralNet ℚ := ⟨[1, 2, 1], wW, ⟨1, 1, 1⟩, critIdQ⟩

/-- Concrete witness data: a one-row, one-column input batch. -/
def XW : Mat ℚ := ⟨1, 1, [1]⟩

/-- Concrete witness data: a one-row, one-column target batch. -/
def TW : Mat ℚ := ⟨1, 1, [0]⟩

/-- A concrete checked criterion over ℚ: identity activation, constant
activation gradient 1, and dimension-checked element-wise cost strategies
(the external cross-entropy cost and gradient are element-wise, so they
raise a dimension error on mismatched shapes). -/
def critEQ : CriterionE ℚ :=
  ⟨id, fun _ => 1,
    fun o t => if o.rows = t.rows ∧ o.cols = t.cols then .ok 0 else .error .matDim,
    fun o t => if o.rows = t.rows ∧ o.cols = t.cols then .ok (o.sub t) else .error .matDim⟩

theorem length_rowMajor (r c : ℕ) (f : ℕ → ℕ → α) : (rowMajor r c f).length = r * c := by
  simp [rowMajor, List.length_flatMap, Function.comp_def, List.map_const', List.sum_replicate,
    smul_eq_mul]

theorem rowMajor_succ (n c : ℕ) (f : ℕ → ℕ → α) :
    rowMajor (n + 1) c f = rowMajor n c f ++ (List.range c).map (f n) := by
  simp [rowMajor, List.range_succ]

theorem getD_map_range {β : Type _} (f : ℕ → β) (n l : ℕ) (d : β) (h : l < n) :
    ((List.range n).map f).getD l d = f l := by
  have hl : l < ((List.range n).map f).length := by simpa using h
  rw [List.getD_eq_getElem _ _ hl, List.getElem_map, List.getElem_range]

theorem rowMajor_getD (r c i j : ℕ) (f : ℕ → ℕ → α) (hi : i < r) (hj : j < c) :
    (rowMajor r c f).getD (i * c + j) 0 = f i j := by
  induction r with
  | zero => omega
  | succ n ih =>
    rw [rowMajor_succ]
    rcases Nat.lt_or_ge i n with h | h
    · rw [List.getD_append]
      · exact ih h
      · rw [length_rowMajor]
        calc i * c + j < i * c + c := by omega
          _ = (i + 1) * c := by ring
          _ ≤ n * c := Nat.mul_le_mul_right c h
    · have hin : i = n := by omega
      subst hin
      rw [List.getD_append_right]
      · rw [length_rowMajor, Nat.add_sub_cancel_left]
        exact getD_map_range _ _ _ _ hj
      · rw [length_rowMajor]; omega

@[simp] theorem Mat.mul_rows (a b : Mat α) : (a.mul b).rows = a.rows := rfl

@[simp] theorem Mat.mul_cols (a b : Mat α) : (a.mul b).cols = b.cols := rfl

@[simp] theorem Mat.hcat_rows (a b : Mat α) : (a.hcat b).rows = a.rows := rfl

@[simp] theorem Mat.hcat_cols (a b : Mat α) : (a.hcat b).cols = a.cols + b.cols := rfl

@[simp] theorem Mat.apply_rows (m : Mat α) (f : α → α) : (m.apply f).rows = m.rows := rfl

@[simp] theorem Mat.apply_cols (m : Mat α) (f : α → α) : (m.apply f).cols = m.cols := rfl

@[simp] theorem Mat.ones_rows (r c : ℕ) : (Mat.ones (α := α) r c).rows = r := rfl

@[simp] theorem Mat.ones_cols (r c : ℕ) : (Mat.ones (α := α) r c).cols = c := rfl

@[simp] theorem Mat.elemul_rows (a b : Mat α) : (a.elemul b).rows = a.rows := rfl

@[simp] theorem Mat.elemul_cols (a b : Mat α) : (a.elemul b).cols = a.cols := rfl

@[simp] theorem Mat.transpose_rows (m : Mat α) : m.transpose.rows = m.cols := rfl

@[simp] theorem Mat.transpose_cols (m : Mat α) : m.transpose.cols = m.rows := rfl

@[simp] theorem Mat.select_cols_rows (m : Mat α) (idxs : List ℕ) :
    (m.select_cols idxs).rows = m.rows := rfl

@[simp] theorem Mat.select_cols_cols (m : Mat α) (idxs : List ℕ) :
    (m.select_cols idxs).cols = idxs.length := rfl

@[simp] theorem Mat.divScalar_rows (m : Mat α) (s : α) : (m.divScalar s).rows = m.rows := rfl

@[simp] theorem Mat.divScalar_cols (m : Mat α) (s : α) : (m.divScalar s).cols = m.cols := rfl

@[simp] theorem Criterion.activate_rows (c : Criterion α) (m : Mat α) :
    (c.activate m).rows = m.rows := rfl

@[simp] theorem Criterion.activate_cols (c : Criterion α) (m : Mat α) :
    (c.activate m).cols = m.cols := rfl

@[simp] theorem Criterion.grad_activ_rows (c : Criterion α) (m : Mat α) :
    (c.grad_activ m).rows = m.rows := rfl

@[simp] theorem Criterion.grad_activ_cols (c : Criterion α) (m : Mat α) :
    (c.grad_activ m).cols = m.cols := rfl

@[simp] theorem get_layer_weights_rows (topo : List ℕ) (w : List α) (idx : ℕ) :
    (get_layer_weights topo w idx).rows = topo.getD idx 0 + 1 := rfl

@[simp] theorem get_layer_weights_cols (topo : List ℕ) (w : List α) (idx : ℕ) :
    (get_layer_weights topo w idx).cols = topo.getD (idx + 1) 0 := rfl

@[simp] theorem stripBias_rows (m : Mat α) : (stripBias m).rows = m.rows := rfl

theorem stripBias_cols (m : Mat α) : (stripBias m).cols = m.cols - 1 := by
  simp [stripBias, List.length_range']

theorem Mat.mul_wf (a b : Mat α) : (a.mul b).wf := by
  simp [Mat.wf, Mat.mul, length_rowMajor]

theorem Mat.hcat_wf (a b : Mat α) : (a.hcat b).wf := by
  simp [Mat.wf, Mat.hcat, length_rowMajor]

theorem Mat.transpose_wf (m : Mat α) : m.transpose.wf := by
  simp [Mat.wf, Mat.transpose, length_rowMajor, Nat.mul_comm]

theorem Mat.apply_wf (m : Mat α) (f : α → α) (h : m.wf) : (m.apply f).wf := by
  simpa [Mat.wf, Mat.apply] using h

theorem fwdLoop_eq (c : Criterion α) (topo : List ℕ) (w : List α) (X : Mat α) (m : ℕ) :
    fwdLoop c topo w X m = ((List.range (m + 1)).map (hidAct c topo w X),
      (List.range (m + 1)).map (preW c topo w X), preW c topo w X m) := by
  induction m with
  | zero => rfl
  | succ m ih =>
    rw [fwdLoop, ih]
    refine Prod.ext ?_ (Prod.ext ?_ ?_) <;>
      simp [List.range_succ, hidAct, preW]

theorem activationsL_eq (c : Criterion α) (topo : List ℕ) (w : List α) (X : Mat α)
    (hk : 2 ≤ topo.length) :
    activationsL c topo w X = (List.range (topo.length - 1)).map (hidAct c topo w X)
      ++ [c.activate (preW c topo w X (topo.length - 2))] := by
  have h1 : topo.length - 2 + 1 = topo.length - 1 := by omega
  rw [activationsL, fwdLoop_eq, h1]

theorem forwardWeightsL_eq (c : Criterion α) (topo : List ℕ) (w : List α) (X : Mat α)
    (hk : 2 ≤ topo.length) :
    forwardWeightsL c topo w X = (List.range (topo.length - 1)).map (preW c topo w X) := by
  have h1 : topo.length - 2 + 1 = topo.length - 1 := by omega
  rw [forwardWeightsL, fwdLoop_eq, h1]

theorem activationsL_getD (c : Criterion α) (topo : List ℕ) (w : List α) (X : Mat α)
    (hk : 2 ≤ topo.length) (l : ℕ) (hl : l ≤ topo.length - 2) :
    (activationsL c topo w X).getD l default = hidAct c topo w X l := by
  rw [activationsL_eq c topo w X hk, List.getD_append]
  · exact getD_map_range _ _ _ _ (by omega)
  · simp; omega

theorem activationsL_getD_last (c : Criterion α) (topo : List ℕ) (w : List α) (X : Mat α)
    (hk : 2 ≤ topo.length) :
    (activationsL c topo w X).getD (topo.length - 1) default
      = c.activate (preW c topo w X (topo.length - 2)) := by
  rw [activationsL_eq c topo w X hk, List.getD_append_right]
  · simp
  · simp

theorem activationsL_length (c : Criterion α) (topo : List ℕ) (w : List α) (X : Mat α)
    (hk : 2 ≤ topo.length) :
    (activationsL c topo w X).length = topo.length := by
  rw [activationsL_eq c topo w X hk]
  simp
  omega

theorem forwardWeightsL_getD (c : Criterion α) (topo : List ℕ) (w : List α) (X : Mat α)
    (hk : 2 ≤ topo.length) (l : ℕ) (hl : l ≤ topo.length - 2) :
    (forwardWeightsL c topo w X).getD l default = preW c topo w X l := by
  rw [forwardWeightsL_eq c topo w X hk]
  exact getD_map_range _ _ _ _ (by omega)

theorem backLoop_succ (c : Criterion α) (topo : List ℕ) (w : List α) (fws : List (Mat α))
    (l : ℕ) (delta : Mat α) (acc : List (Mat α)) :
    backLoop c topo w fws (l + 1) delta acc
      = backLoop c topo w fws l
          (stripBias ((delta.mul ((get_layer_weights topo w (l + 1)).transpose)).elemul
            (c.grad_activ (aug (fws.getD l default)))))
          (acc ++ [stripBias ((delta.mul ((get_layer_weights topo w (l + 1)).transpose)).elemul
            (c.grad_activ (aug (fws.getD l default))))]) := rfl

theorem backLoop_eq (c : Criterion α) (topo : List ℕ) (w : List α) (X T : Mat α)
    (hk : 2 ≤ topo.length) :
    ∀ l, l ≤ topo.length - 2 → ∀ acc : List (Mat α),
      backLoop c topo w (forwardWeightsL c topo w X) l
        (deltaRec c topo w X T (topo.length - 2 - l)) acc
      = acc ++ (List.range' (topo.length - 1 - l) l).map (deltaRec c topo w X T) := by
  intro l
  induction l with
  | zero => intro _ acc; simp [backLoop]
  | succ l ih =>
    intro hl acc
    have hfw : (forwardWeightsL c topo w X).getD l default = preW c topo w X l :=
      forwardWeightsL_getD c topo w X hk l (by omega)
    have harith1 : topo.length - 2 - (l + 1) = topo.length - 3 - l := by omega
    have harith2 : topo.length - 3 - l + 1 = topo.length - 2 - l := by omega
    have hkj : topo.length - 2 - (topo.length - 3 - l) = l + 1 := by omega
    have hkj2 : topo.length - 3 - (topo.length - 3 - l) = l := by omega
    have hstep : stripBias (((deltaRec c topo w X T (topo.length - 3 - l)).mul
        ((get_layer_weights topo w (l + 1)).transpose)).elemul
          (c.grad_activ (aug ((forwardWeightsL c topo w X).getD l default))))
        = deltaRec c topo w X T (topo.length - 2 - l) := by
      rw [hfw, ← harith2]
      conv_rhs => rw [deltaRec]
      rw [hkj, hkj2]
    rw [harith1, backLoop_succ, hstep, ih (by omega)]
    have hrange : List.range' (topo.length - 1 - (l + 1)) (l + 1)
        = (topo.length - 2 - l) :: List.range' (topo.length - 1 - l) l := by
      have h1 : topo.length - 1 - (l + 1) = topo.length - 2 - l := by omega
      have h2 : topo.length - 2 - l + 1 = topo.length - 1 - l := by omega
      rw [h1, List.range'_succ, h2]
    rw [hrange]
    simp

theorem deltasL_eq (c : Criterion α) (topo : List ℕ) (w : List α) (X T : Mat α)
    (hk : 2 ≤ topo.length) :
    deltasL c topo w X T = (List.range (topo.length - 1)).map (deltaRec c topo w X T) := by
  have h0 : outDelta c topo w X T = deltaRec c topo w X T (topo.length - 2 - (topo.length - 2)) := by
    rw [Nat.sub_self]; rfl
  rw [deltasL, h0, backLoop_eq c topo w X T hk (topo.length - 2) le_rfl]
  have h1 : topo.length - 1 - (topo.length - 2) = 1 := by omega
  rw [h1, Nat.sub_self]
  have h2 : List.range (topo.length - 1) = 0 :: List.range' 1 (topo.length - 2) := by
    rw [List.range_eq_range']
    have h3 : topo.length - 1 = (topo.length - 2) + 1 := by omega
    rw [h3, List.range'_succ]
  rw [h2]
  simp [deltaRec]

theorem deltasL_getD (c : Criterion α) (topo : List ℕ) (w : List α) (X T : Mat α)
    (hk : 2 ≤ topo.length) (j : ℕ) (hj : j ≤ topo.length - 2) :
    (deltasL c topo w X T).getD j default = deltaRec c topo w X T j := by
  rw [deltasL_eq c topo w X T hk]
  exact getD_map_range _ _ _ _ (by omega)

theorem hidAct_rows (c : Criterion α) (topo : List ℕ) (w : List α) (X : Mat α) (m : ℕ) :
    (hidAct c topo w X m).rows = X.rows := by
  induction m with
  | zero => rfl
  | succ m ih => simpa [hidAct] using ih

theorem preW_rows (c : Criterion α) (topo : List ℕ) (w : List α) (X : Mat α) (l : ℕ) :
    (preW c topo w X l).rows = X.rows := hidAct_rows c topo w X l

theorem preW_cols (c : Criterion α) (topo : List ℕ) (w : List α) (X : Mat α) (l : ℕ) :
    (preW c topo w X l).cols = topo.getD (l + 1) 0 := rfl

theorem hidAct_cols (c : Criterion α) (topo : List ℕ) (w : List α) (X : Mat α)
    (hX : X.cols = topo.getD 0 0) (m : ℕ) :
    (hidAct c topo w X m).cols = 1 + topo.getD m 0 := by
  cases m with
  | zero => simp [hidAct, netData, hX]
  | succ m => simp [hidAct]

theorem deltaRec_cols (c : Criterion α) (topo : List ℕ) (w : List α) (X T : Mat α)
    (hk : 2 ≤ topo.length) (hc : costGradShape c) (j : ℕ) (hj : j ≤ topo.length - 2) :
    (deltaRec c topo w X T j).cols = topo.getD (topo.length - 1 - j) 0 := by
  cases j with
  | zero =>
    show (outDelta c topo w X T).cols = _
    rw [outDelta, Mat.elemul_cols, (hc _ _).2, activationsL_getD_last c topo w X hk,
      Criterion.activate_cols, preW_cols]
    have h1 : topo.length - 2 + 1 = topo.length - 1 := by omega
    rw [h1, Nat.sub_zero]
  | succ j =>
    rw [deltaRec, stripBias_cols]
    simp only [Mat.elemul_cols, Mat.mul_cols, Mat.transpose_cols, get_layer_weights_rows]
    have h1 : topo.length - 1 - (j + 1) = topo.length - 2 - j := by omega
    rw [h1, Nat.add_sub_cancel]

/-- C4: for every NeuralNet gradient evaluation, the output-layer error
signal (`deltaRec 0`, the first entry of the `deltas` list) is the
element-wise product of the cost gradient with respect to the output and the
activation gradient at the output pre-activation; the flat gradient returned
by `compute_grad` is the concatenation, in layer order `l = 0, ..., k-2`, of
the blocks `(error at layer l+1)^T * (bias-augmented activation entering
layer l)`, each divided by the batch row count (`deltaRec (k-2-l)` is the
error back-propagated to layer `l+1`, and `hidAct l` the bias-augmented
activation entering layer `l`). -/
theorem c4_gradient_assembly (net : NeuralNet α) (w : List α) (X T : Mat α)
    (hk : 2 ≤ net.layer_sizes.length) :
    (net.compute_grad w X T).2
      = ((List.range (net.layer_sizes.length - 1)).map (fun l =>
          (((deltaRec net.criterion net.layer_sizes w X T
              (net.layer_sizes.length - 2 - l)).transpose.mul
            (hidAct net.criterion net.layer_sizes w X l)).divScalar
              (X.rows : α)).into_vec)).flatten
    ∧ deltaRec net.criterion net.layer_sizes w X T 0
      = (net.criterion.cost_grad
          (net.criterion.activate
            (preW net.criterion net.layer_sizes w X (net.layer_sizes.length - 2))) T).elemul
        (net.criterion.grad_activ
          (preW net.criterion net.layer_sizes w X (net.layer_sizes.length - 2))) := by
  constructor
  · show ((gradBlocksL net.criterion net.layer_sizes w X T).map Mat.into_vec).flatten = _
    rw [gradBlocksL, List.map_map]
    refine congrArg List.flatten (List.map_congr_left ?_)
    intro l hl
    have hl' : l < net.layer_sizes.length - 1 := List.mem_range.mp hl
    simp only [Function.comp_apply]
    rw [deltasL_getD net.criterion net.layer_sizes w X T hk _ (by omega),
      activationsL_getD net.criterion net.layer_sizes w X hk l (by omega)]
  · show outDelta net.criterion net.layer_sizes w X T = _
    rw [outDelta, activationsL_getD_last net.criterion net.layer_sizes w X hk,
      forwardWeightsL_getD net.criterion net.layer_sizes w X hk _ le_rfl]

/-- C5: in every NeuralNet gradient evaluation, moving from the output
toward the input, the delta at list position `j+1` (layer `k-2-j`) is the
delta at position `j` multiplied by the transposed layer weights and
element-wise multiplied by the activation gradient at the bias-augmented
pre-activation of the earlier layer, with the bias column stripped
(`stripBias` keeps columns `1..cols`); consequently the delta at position
`j` has exactly `topo[k-1-j]` columns, the neuron count of its layer. -/
theorem c5_backprop_step (net : NeuralNet α) (w : List α) (X T : Mat α)
    (hk : 2 ≤ net.layer_sizes.length) (hX : X.cols = net.layer_sizes.getD 0 0)
    (hc : costGradShape net.criterion) :
    (∀ j, j + 1 ≤ net.layer_sizes.length - 2 →
      (deltasL net.criterion net.layer_sizes w X T).getD (j + 1) default
        = stripBias ((((deltasL net.criterion net.layer_sizes w X T).getD j default).mul
            ((get_layer_weights net.layer_sizes w (net.layer_sizes.length - 2 - j)).transpose)).elemul
            (net.criterion.grad_activ
              (aug (preW net.criterion net.layer_sizes w X (net.layer_sizes.length - 3 - j))))))
    ∧ (∀ j, j ≤ net.layer_sizes.length - 2 →
        ((deltasL net.criterion net.layer_sizes w X T).getD j default).cols
          = net.layer_sizes.getD (net.layer_sizes.length - 1 - j) 0) := by
  constructor
  · intro j hj
    rw [deltasL_getD net.criterion net.layer_sizes w X T hk _ hj,
      deltasL_getD net.criterion net.layer_sizes w X T hk _ (by omega), deltaRec]
  · intro j hj
    rw [deltasL_getD net.criterion net.layer_sizes w X T hk _ hj]
    exact deltaRec_cols net.criterion net.layer_sizes w X T hk hc j hj

theorem fwdPropLoop_rows (c : Criterion α) (topo : List ℕ) (w : List α) (X : Mat α) (m : ℕ) :
    (fwdPropLoop c topo w X m).rows = X.rows := by
  induction m with
  | zero => rfl
  | succ m ih => simpa [fwdPropLoop] using ih

theorem fwdPropLoop_cols (c : Criterion α) (topo : List ℕ) (w : List α) (X : Mat α) (m : ℕ) :
    (fwdPropLoop c topo w X m).cols = topo.getD (m + 1) 0 := by
  cases m <;> rfl

theorem fwdPropLoop_wf (c : Criterion α) (topo : List ℕ) (w : List α) (X : Mat α) (m : ℕ) :
    (fwdPropLoop c topo w X m).wf := by
  cases m <;> exact Mat.apply_wf _ _ (Mat.mul_wf _ _)

/-- C7: for every topology of length at least 2 and every `N x n0` input
with `N >= 1`, `predict` is forward propagation, forward propagation is the
loop that repeatedly prepends a ones column, multiplies by the layer's
weight-matrix view and applies the criterion's activation function
element-wise (this holds at the output layer too: the result is an
activation application), and the result is an `N x nk` matrix (rows, column
count equal to the last topology entry, and well-formed data). -/
theorem c7_forward_shape (net : NeuralNet α) (X : Mat α)
    (hk : 2 ≤ net.layer_sizes.length) (hr : 1 ≤ X.rows)
    (hX : X.cols = net.layer_sizes.getD 0 0) :
    net.predict X = net.forward_prop X
  ∧ net.forward_prop X
      = fwdPropLoop net.criterion net.layer_sizes net.weights X (net.layer_sizes.length - 2)
  ∧ (∀ m, fwdPropLoop net.criterion net.layer_sizes net.weights X (m + 1)
      = net.criterion.activate
          ((aug (fwdPropLoop net.criterion net.layer_sizes net.weights X m)).mul
            (get_layer_weights net.layer_sizes net.weights (m + 1))))
  ∧ (∃ z : Mat α, net.forward_prop X = net.criterion.activate z)
  ∧ (net.forward_prop X).rows = X.rows
  ∧ (net.forward_prop X).cols = net.layer_sizes.getD (net.layer_sizes.length - 1) 0
  ∧ (net.forward_prop X).wf := by
  refine ⟨rfl, rfl, fun m => rfl, ?_, fwdPropLoop_rows _ _ _ _ _, ?_, fwdPropLoop_wf _ _ _ _ _⟩
  · show ∃ z : Mat α, fwdPropLoop net.criterion net.layer_sizes net.weights X
      (net.layer_sizes.length - 2) = net.criterion.activate z
    cases h : net.layer_sizes.length - 2 <;> exact ⟨_, rfl⟩
  · show (fwdPropLoop net.criterion net.layer_sizes net.weights X
      (net.layer_sizes.length - 2)).cols = _
    rw [fwdPropLoop_cols]
    have h1 : net.layer_sizes.length - 2 + 1 = net.layer_sizes.length - 1 := by omega
    rw [h1]

/-- Witness for `c4_gradient_assembly` at the concrete `[1, 2, 1]` network
`netW`. -/
theorem c4_witness :
    2 ≤ netW.layer_sizes.length
    ∧ ((netW.compute_grad wW XW TW).2
        = ((List.range (netW.layer_sizes.length - 1)).map (fun l =>
            (((deltaRec netW.criterion netW.layer_sizes wW XW TW
                (netW.layer_sizes.length - 2 - l)).transpose.mul
              (hidAct netW.criterion netW.layer_sizes wW XW l)).divScalar
                (XW.rows : ℚ)).into_vec)).flatten
      ∧ deltaRec netW.criterion netW.layer_sizes wW XW TW 0
        = (netW.criterion.cost_grad
            (netW.criterion.activate
              (preW netW.criterion netW.layer_sizes wW XW (netW.layer_sizes.length - 2))) TW).elemul
          (netW.criterion.grad_activ
            (preW netW.criterion netW.layer_sizes wW XW (netW.layer_sizes.length - 2)))) :=
  ⟨by decide, c4_gradient_assembly netW wW XW TW (by decide)⟩

/-- Witness for `c5_backprop_step` at the concrete `[1, 2, 1]` network
`netW`. -/
theorem c5_witness :
    (2 ≤ netW.layer_sizes.length ∧ XW.cols = netW.layer_sizes.getD 0 0
      ∧ costGradShape netW.criterion)
    ∧ ((∀ j, j + 1 ≤ netW.layer_sizes.length - 2 →
        (deltasL netW.criterion netW.layer_sizes wW XW TW).getD (j + 1) default
          = stripBias ((((deltasL netW.criterion netW.layer_sizes wW XW TW).getD j default).mul
              ((get_layer_weights netW.layer_sizes wW
                (netW.layer_sizes.length - 2 - j)).transpose)).elemul
              (netW.criterion.grad_activ
                (aug (preW netW.criterion netW.layer_sizes wW XW
                  (netW.layer_sizes.length - 3 - j))))))
      ∧ (∀ j, j ≤ netW.layer_sizes.length - 2 →
          ((deltasL netW.criterion netW.layer_sizes wW XW TW).getD j default).cols
            = netW.layer_sizes.getD (netW.layer_sizes.length - 1 - j) 0)) :=
  ⟨⟨by decide, by decide, fun o t => ⟨rfl, rfl⟩⟩,
    c5_backprop_step netW wW XW TW (by decide) (by decide) (fun o t => ⟨rfl, rfl⟩)⟩

/-- Witness for `c7_forward_shape` at the concrete `[1, 2, 1]` network
`netW`. -/
theorem c7_witness :
    (2 ≤ netW.layer_sizes.length ∧ 1 ≤ XW.rows ∧ XW.cols = netW.layer_sizes.getD 0 0)
    ∧ (netW.predict XW = netW.forward_prop XW
      ∧ netW.forward_prop XW
          = fwdPropLoop netW.criterion netW.layer_sizes netW.weights XW
              (netW.layer_sizes.length - 2)
      ∧ (∀ m, fwdPropLoop netW.criterion netW.layer_sizes netW.weights XW (m + 1)
          = netW.criterion.activate
              ((aug (fwdPropLoop netW.criterion netW.layer_sizes netW.weights XW m)).mul
                (get_layer_weights netW.layer_sizes netW.weights (m + 1))))
      ∧ (∃ z : Mat ℚ, netW.forward_prop XW = netW.criterion.activate z)
      ∧ (netW.forward_prop XW).rows = XW.rows
      ∧ (netW.forward_prop XW).cols = netW.layer_sizes.getD (netW.layer_sizes.length - 1) 0
      ∧ (netW.forward_prop XW).wf) :=
  ⟨⟨by decide, by decide, by decide⟩,
    c7_forward_shape netW XW (by decide) (by decide) (by decide)⟩

theorem listSum_range (f : ℕ → ℕ) (n : ℕ) :
    ((List.range n).map f).sum = ∑ l ∈ Finset.range n, f l := by
  induction n with
  | zero => simp
  | succ n ih => rw [List.range_succ, List.map_append, List.sum_append, Finset.sum_range_succ, ih]; simp

theorem init_layer_weights_length (a b : ℕ) (rand : ℕ → ℝ) :
    (init_layer_weights a b rand).length = a * b := by
  simp [init_layer_weights]

theorem drop_append_len {β : Type _} (l1 l2 : List β) (k : ℕ) :
    (l1 ++ l2).drop (l1.length + k) = l2.drop k := by
  rw [← List.drop_drop, List.drop_left]

theorem flatten_drop_take {β : Type _} :
    ∀ (l n : ℕ) (g : ℕ → List β) (s : ℕ → ℕ), (∀ i, (g i).length = s i) → l < n →
      ((((List.range n).map g).flatten).drop (∑ i ∈ Finset.range l, s i)).take (s l) = g l := by
  intro l
  induction l with
  | zero =>
    intro n g s hg hl
    obtain ⟨n', rfl⟩ : ∃ n', n = n' + 1 := ⟨n - 1, by omega⟩
    rw [List.range_succ_eq_map, List.map_cons, List.flatten_cons, Finset.sum_range_zero,
      List.drop_zero, ← hg 0, List.take_left]
  | succ l ih =>
    intro n g s hg hl
    obtain ⟨n', rfl⟩ : ∃ n', n = n' + 1 := ⟨n - 1, by omega⟩
    rw [List.range_succ_eq_map, List.map_cons, List.flatten_cons, Finset.sum_range_succ',
      Nat.add_comm (∑ i ∈ Finset.range l, s (i + 1)) (s 0), ← hg 0, drop_append_len,
      List.map_map]
    exact ih n' (fun i => g (i + 1)) (fun i => s (i + 1)) (fun i => hg (i + 1)) (by omega)

/-- C6: for every topology of length at least 2, the flat parameter vector
built at construction has length exactly the sum of the per-layer sizes
`(n_l + 1) * n_{l+1}`; the slice of the flat vector starting at the
layer-order-dependent offset `lstart` is exactly that layer's generated
block and has length `(n_l + 1) * n_{l+1}`; and every weight-matrix view
(`get_layer_weights`) is taken from the flat vector as the
`(n_idx + 1) x n_{idx+1}` matrix over the same `lstart`/`layerSize`
layout. -/
theorem c6_flat_layout (topo : List ℕ) (rand : ℕ → ℝ) (hk : 2 ≤ topo.length) :
    (create_weights topo rand).length = fullSize topo
  ∧ (∀ l, l < topo.length - 1 →
      ((create_weights topo rand).drop (lstart topo l)).take (layerSize topo l)
        = init_layer_weights (topo.getD l 0 + 1) (topo.getD (l + 1) 0)
            (fun i => rand (lstart topo l + i))
      ∧ (((create_weights topo rand).drop (lstart topo l)).take (layerSize topo l)).length
          = layerSize topo l)
  ∧ (∀ (w : List ℝ) (idx : ℕ),
      (get_layer_weights topo w idx).data = (w.drop (lstart topo idx)).take (layerSize topo idx)
      ∧ (get_layer_weights topo w idx).rows = topo.getD idx 0 + 1
      ∧ (get_layer_weights topo w idx).cols = topo.getD (idx + 1) 0) := by
  have hblock : ∀ l, (init_layer_weights (topo.getD l 0 + 1) (topo.getD (l + 1) 0)
      (fun i => rand (lstart topo l + i))).length = layerSize topo l := by
    intro l; rw [init_layer_weights_length, layerSize]
  have hslice : ∀ l, l < topo.length - 1 →
      ((create_weights topo rand).drop (lstart topo l)).take (layerSize topo l)
        = init_layer_weights (topo.getD l 0 + 1) (topo.getD (l + 1) 0)
            (fun i => rand (lstart topo l + i)) := by
    intro l hl
    rw [create_weights]
    exact flatten_drop_take l (topo.length - 1) _ (layerSize topo) hblock hl
  refine ⟨?_, fun l hl => ⟨hslice l hl, ?_⟩, fun w idx => ⟨rfl, rfl, rfl⟩⟩
  · rw [create_weights, List.length_flatten, List.map_map]
    have : (List.length ∘ fun l => init_layer_weights (topo.getD l 0 + 1) (topo.getD (l + 1) 0)
        (fun i => rand (lstart topo l + i))) = fun l => layerSize topo l := by
      funext l; exact hblock l
    rw [this, listSum_range, fullSize]
  · rw [hslice l hl, hblock l]

/-- C9: for every layer transition, every weight of the generated block lies
in `[-eps, eps]` with `eps = sqrt(6 / (n_l + 1 + n_{l+1}))` (the draw is
`rand * 2 * eps - eps` with `rand` in `[0, 1)`), and the initial flat vector
is the concatenation of the per-layer blocks in topology order. -/
theorem c9_weight_range (topo : List ℕ) (rand : ℕ → ℝ)
    (hrand : ∀ n, 0 ≤ rand n ∧ rand n < 1) (l : ℕ) (hl : l < topo.length - 1) :
    create_weights topo rand
      = ((List.range (topo.length - 1)).map (fun j =>
          init_layer_weights (topo.getD j 0 + 1) (topo.getD (j + 1) 0)
            (fun i => rand (lstart topo j + i)))).flatten
  ∧ ∀ x ∈ init_layer_weights (topo.getD l 0 + 1) (topo.getD (l + 1) 0)
        (fun i => rand (lstart topo l + i)),
      -Real.sqrt (6 / ((topo.getD l 0 + 1 + topo.getD (l + 1) 0 : ℕ) : ℝ)) ≤ x
      ∧ x ≤ Real.sqrt (6 / ((topo.getD l 0 + 1 + topo.getD (l + 1) 0 : ℕ) : ℝ)) := by
  refine ⟨rfl, ?_⟩
  intro x hx
  rw [init_layer_weights] at hx
  obtain ⟨i, hi, rfl⟩ := List.mem_map.mp hx
  have hs : 0 ≤ Real.sqrt (6 / ((topo.getD l 0 + 1 + topo.getD (l + 1) 0 : ℕ) : ℝ)) :=
    Real.sqrt_nonneg _
  obtain ⟨h0, h1⟩ := hrand (lstart topo l + i)
  constructor <;> nlinarith

/-- C10: under the two assertions of `get_layer_weights` (`idx` below the
layer count minus one, and the weights slice of full topology-derived
length), the whole unchecked index range `start .. start + capacity` lies
strictly within the bounds of the weights slice. -/
theorem c10_unchecked_reads_in_bounds (topo : List ℕ) (weights : List ℝ) (idx : ℕ)
    (hidx : idx < topo.length - 1) (hw : weights.length = fullSize topo) :
    lstart topo idx + layerSize topo idx ≤ weights.length
  ∧ ∀ i, lstart topo idx ≤ i → i < lstart topo idx + layerSize topo idx →
      i < weights.length := by
  have h : lstart topo idx + layerSize topo idx ≤ fullSize topo := by
    rw [lstart, fullSize, ← Finset.sum_range_succ]
    exact Finset.sum_le_sum_of_subset (Finset.range_subset.mpr (by omega))
  rw [hw]
  exact ⟨h, fun i _ hi => lt_of_lt_of_le hi h⟩

/-- Witness for `c6_flat_layout` at topology `[2, 3, 1]` with the constant
zero random stream. -/
theorem c6_witness :
    2 ≤ ([2, 3, 1] : List ℕ).length
    ∧ ((create_weights [2, 3, 1] (fun _ : ℕ => (0 : ℝ))).length = fullSize [2, 3, 1]
      ∧ (∀ l, l < ([2, 3, 1] : List ℕ).length - 1 →
          ((create_weights [2, 3, 1] (fun _ : ℕ => (0 : ℝ))).drop (lstart [2, 3, 1] l)).take
              (layerSize [2, 3, 1] l)
            = init_layer_weights (([2, 3, 1] : List ℕ).getD l 0 + 1)
                (([2, 3, 1] : List ℕ).getD (l + 1) 0)
                (fun i => (fun _ => (0 : ℝ)) (lstart [2, 3, 1] l + i))
          ∧ (((create_weights [2, 3, 1] (fun _ : ℕ => (0 : ℝ))).drop (lstart [2, 3, 1] l)).take
              (layerSize [2, 3, 1] l)).length = layerSize [2, 3, 1] l)
      ∧ (∀ (w : List ℝ) (idx : ℕ),
          (get_layer_weights [2, 3, 1] w idx).data
            = (w.drop (lstart [2, 3, 1] idx)).take (layerSize [2, 3, 1] idx)
          ∧ (get_layer_weights [2, 3, 1] w idx).rows = ([2, 3, 1] : List ℕ).getD idx 0 + 1
          ∧ (get_layer_weights [2, 3, 1] w idx).cols = ([2, 3, 1] : List ℕ).getD (idx + 1) 0)) :=
  ⟨by decide, c6_flat_layout [2, 3, 1] (fun _ : ℕ => (0 : ℝ)) (by decide)⟩

/-- Witness for `c9_weight_range` at topology `[2, 3, 1]`, layer 0, with the
constant zero random stream. -/
theorem c9_witness :
    ((∀ n, 0 ≤ (fun _ : ℕ => (0 : ℝ)) n ∧ (fun _ : ℕ => (0 : ℝ)) n < 1)
      ∧ 0 < ([2, 3, 1] : List ℕ).length - 1)
    ∧ (create_weights [2, 3, 1] (fun _ : ℕ => (0 : ℝ))
        = ((List.range (([2, 3, 1] : List ℕ).length - 1)).map (fun j =>
            init_layer_weights (([2, 3, 1] : List ℕ).getD j 0 + 1)
              (([2, 3, 1] : List ℕ).getD (j + 1) 0)
              (fun i => (fun _ : ℕ => (0 : ℝ)) (lstart [2, 3, 1] j + i)))).flatten
      ∧ ∀ x ∈ init_layer_weights (([2, 3, 1] : List ℕ).getD 0 0 + 1)
            (([2, 3, 1] : List ℕ).getD (0 + 1) 0)
            (fun i => (fun _ : ℕ => (0 : ℝ)) (lstart [2, 3, 1] 0 + i)),
          -Real.sqrt (6 / ((([2, 3, 1] : List ℕ).getD 0 0 + 1
              + ([2, 3, 1] : List ℕ).getD (0 + 1) 0 : ℕ) : ℝ)) ≤ x
          ∧ x ≤ Real.sqrt (6 / ((([2, 3, 1] : List ℕ).getD 0 0 + 1
              + ([2, 3, 1] : List ℕ).getD (0 + 1) 0 : ℕ) : ℝ))) :=
  ⟨⟨fun n => ⟨le_refl 0, by norm_num⟩, by decide⟩,
    c9_weight_range [2, 3, 1] (fun _ : ℕ => (0 : ℝ)) (fun n => ⟨le_refl 0, by norm_num⟩) 0 (by decide)⟩

/-- Witness for `c10_unchecked_reads_in_bounds` at topology `[2, 3, 1]`,
layer index 1, with a weights slice of the asserted full length 13. -/
theorem c10_witness :
    (1 < ([2, 3, 1] : List ℕ).length - 1
      ∧ (List.replicate 13 (0 : ℝ)).length = fullSize [2, 3, 1])
    ∧ (lstart [2, 3, 1] 1 + layerSize [2, 3, 1] 1 ≤ (List.replicate 13 (0 : ℝ)).length
      ∧ ∀ i, lstart [2, 3, 1] 1 ≤ i → i < lstart [2, 3, 1] 1 + layerSize [2, 3, 1] 1 →
          i < (List.replicate 13 (0 : ℝ)).length) :=
  ⟨⟨by decide, by decide⟩,
    c10_unchecked_reads_in_bounds [2, 3, 1] (List.replicate 13 0) 1 (by decide) (by decide)⟩

theorem getD_map_lt {β γ : Type _} (f : β → γ) (l : List β) (n : ℕ) (d : γ) (d' : β)
    (h : n < l.length) : (l.map f).getD n d = f (l.getD n d') := by
  rw [List.getD_eq_getElem _ _ (by simpa using h), List.getElem_map,
    List.getD_eq_getElem _ _ h]

theorem getD_zipWith_lt {β : Type _} (f : β → β → β) (a b : List β) (n : ℕ) (d da db : β)
    (ha : n < a.length) (hb : n < b.length) :
    (List.zipWith f a b).getD n d = f (a.getD n da) (b.getD n db) := by
  rw [List.getD_eq_getElem _ _ (by simp [List.length_zipWith]; omega), List.getElem_zipWith,
    List.getD_eq_getElem _ _ ha, List.getD_eq_getElem _ _ hb]

theorem transpose_entry (m : Mat α) (i j : ℕ) (hi : i < m.rows) (hj : j < m.cols) :
    m.transpose.entry j i = m.entry i j := by
  show (rowMajor m.cols m.rows (fun j i => m.entry i j)).getD (j * m.rows + i) 0 = m.entry i j
  exact rowMajor_getD m.cols m.rows j i _ hj hi

theorem matVec_length (m : Mat α) (v : List α) : (matVec m v).length = m.rows := by
  simp [matVec]

/-- C8: for every LogisticRegressor gradient evaluation, the returned scalar
is the (abstract external) cross-entropy cost of `sig (X * beta)` against the
targets, and component `j` of the returned gradient is
`(sum over rows i of X[i,j] * (sig((X*beta)[i]) - y[i])) / rows`, i.e. the
component of `X^T * (sig (X * beta) - y)` divided by the row count. -/
theorem c8_logreg_grad (sig : α → α) (cE : List α → List α → α) (params : List α)
    (X : Mat α) (y : List α) (j : ℕ) (hj : j < X.cols) (hy : y.length = X.rows) :
    (LogisticRegressor.compute_grad sig cE params X y).1 = cE ((matVec X params).map sig) y
  ∧ (LogisticRegressor.compute_grad sig cE params X y).2.getD j 0
      = ((List.range X.rows).map (fun i =>
          X.entry i j * (sig ((matVec X params).getD i 0) - y.getD i 0))).sum
        / (X.rows : α) := by
  refine ⟨rfl, ?_⟩
  show ((matVec X.transpose (vecSub ((matVec X params).map sig) y)).map
      (· / (X.rows : α))).getD j 0 = _
  have hjlen : j < (matVec X.transpose (vecSub ((matVec X params).map sig) y)).length := by
    rw [matVec_length, Mat.transpose_rows]; exact hj
  rw [getD_map_lt _ _ _ _ 0 hjlen]
  have hjrow : j < X.transpose.rows := hj
  rw [matVec]
  rw [getD_map_range _ _ _ _ hjrow]
  congr 1
  have hcols : X.transpose.cols = X.rows := rfl
  rw [hcols]
  refine congrArg List.sum (List.map_congr_left ?_)
  intro t ht
  have ht' : t < X.rows := List.mem_range.mp ht
  rw [transpose_entry X t j ht' hj]
  congr 1
  rw [vecSub, getD_zipWith_lt _ _ _ _ _ 0 0 (by rw [List.length_map, matVec_length]; exact ht')
    (by rw [hy]; exact ht')]
  congr 1
  exact getD_map_lt _ _ _ _ 0 (by rw [matVec_length]; exact ht')

/-- Witness for `c8_logreg_grad` at a concrete 1 x 1 input over ℚ with the
identity activation and zero cost strategies. -/
theorem c8_witness :
    (0 < (⟨1, 1, [2]⟩ : Mat ℚ).cols ∧ ([1] : List ℚ).length = (⟨1, 1, [2]⟩ : Mat ℚ).rows)
    ∧ ((LogisticRegressor.compute_grad id (fun _ _ => 0) [3] (⟨1, 1, [2]⟩ : Mat ℚ) [1]).1
        = (fun _ _ => (0 : ℚ)) ((matVec (⟨1, 1, [2]⟩ : Mat ℚ) [3]).map id) [1]
      ∧ (LogisticRegressor.compute_grad id (fun _ _ => 0) [3] (⟨1, 1, [2]⟩ : Mat ℚ) [1]).2.getD 0 0
        = ((List.range (⟨1, 1, [2]⟩ : Mat ℚ).rows).map (fun i =>
            (⟨1, 1, [2]⟩ : Mat ℚ).entry i 0
              * (id ((matVec (⟨1, 1, [2]⟩ : Mat ℚ) [3]).getD i 0) - ([1] : List ℚ).getD i 0))).sum
          / ((⟨1, 1, [2]⟩ : Mat ℚ).rows : ℚ)) :=
  ⟨⟨by decide, by decide⟩,
    c8_logreg_grad id (fun _ _ => 0) [3] (⟨1, 1, [2]⟩ : Mat ℚ) [1] 0 (by decide) (by decide)⟩

/-- C1 counterexample: a freshly constructed, never-trained NeuralNet
(topology `[1, 1]`, weights drawn by `create_weights` from the constant-1/2
stream, so both weights are `0.5 * 2 * eps - eps = 0`) answers `predict` with
a concrete value — the spec claim that predict before train fails with
`UntrainedModelError` for every model is false for NeuralNet, whose weights
exist from construction and whose predict performs no trained check. -/
theorem c1_counterexample :
    NeuralNet.predict netC1 (⟨1, 1, [10]⟩ : Mat ℝ) = (⟨1, 1, [0]⟩ : Mat ℝ) := by
  have hw : netC1.weights = [0, 0] := by
    show create_weights [1, 1] (fun _ => (1 : ℝ) / 2) = [0, 0]
    rw [create_weights]
    norm_num [init_layer_weights, List.range_succ]
    ring_nf
    simp
  show NeuralNet.forward_prop netC1 (⟨1, 1, [10]⟩ : Mat ℝ) = (⟨1, 1, [0]⟩ : Mat ℝ)
  rw [NeuralNet.forward_prop]
  show fwdPropLoop critIdR [1, 1] netC1.weights (⟨1, 1, [10]⟩ : Mat ℝ) 0 = _
  rw [hw, fwdPropLoop]
  norm_num [Criterion.activate, critIdR, Mat.apply, Mat.mul, rowMajor, netData, Mat.hcat,
    Mat.entry, Mat.ones, get_layer_weights, lstart, layerSize, List.range_succ]

/-- C1 amended: predict before any train fails only for LogisticRegressor
(its absent parameters make predict take the panic branch, modelled as
`none`); a freshly constructed NeuralNet instead holds construction-time
randomly initialized weights, and its predict is total: it simply runs
forward propagation on them. -/
theorem c1_untrained_predict :
    (∀ (sig : ℚ → ℚ) (gd : GradientDesc ℚ) (X : Mat ℚ),
      (LogisticRegressor.new gd).predict sig X = none)
    ∧ (∀ (topo : List ℕ) (rand : ℕ → ℝ) (gd : StochasticGD ℝ) (c : Criterion ℝ) (X : Mat ℝ),
        (NeuralNet.new topo rand gd c).predict X
          = (NeuralNet.new topo rand gd c).forward_prop X
        ∧ (NeuralNet.new topo rand gd c).weights = create_weights topo rand) :=
  ⟨fun _ _ _ => rfl, fun _ _ _ _ _ => ⟨rfl, rfl⟩⟩

/-- C2 counterexample: training the concrete network `netC2` twice with the
same data ends with different weights than training it once (`[1, 0]` trains
to `[0, -1]`, which trains to `[1, 0]`).  If each train call's optimized
parameters were independent of the parameter vector left by an earlier train
call, both expressions would be the optimized parameters of the same data
and would coincide — so the claim fails: `NeuralNet::train` warm-starts from
the stored weights. -/
theorem c2_counterexample :
    (NeuralNet.train shuffleId (NeuralNet.train shuffleId netC2 (⟨1, 1, [1]⟩ : Mat ℚ)
        (⟨1, 1, [0]⟩ : Mat ℚ)) (⟨1, 1, [1]⟩ : Mat ℚ) (⟨1, 1, [0]⟩ : Mat ℚ)).weights
      ≠ (NeuralNet.train shuffleId netC2 (⟨1, 1, [1]⟩ : Mat ℚ)
          (⟨1, 1, [0]⟩ : Mat ℚ)).weights := by
  have h1 : (NeuralNet.train shuffleId netC2 (⟨1, 1, [1]⟩ : Mat ℚ)
      (⟨1, 1, [0]⟩ : Mat ℚ)).weights = [0, -1] := by with_unfolding_all rfl
  have h2 : (NeuralNet.train shuffleId (NeuralNet.train shuffleId netC2 (⟨1, 1, [1]⟩ : Mat ℚ)
      (⟨1, 1, [0]⟩ : Mat ℚ)) (⟨1, 1, [1]⟩ : Mat ℚ) (⟨1, 1, [0]⟩ : Mat ℚ)).weights
      = [1, 0] := by with_unfolding_all rfl
  rw [h1, h2]
  norm_num

/-- C2 amended: every train call fully replaces the stored parameters with
the optimizer's output.  For LogisticRegressor the optimization restarts
from the fixed `0.5` vector, so the result is independent of any previously
stored parameters; for NeuralNet the optimizer is seeded with the currently
stored weights (warm start), so its result can depend on the parameters an
earlier train call left behind. -/
theorem c2_train_replacement :
    (∀ (sig : ℚ → ℚ) (cE : List ℚ → List ℚ → ℚ) (p1 p2 : Option (List ℚ))
        (gd : GradientDesc ℚ) (X : Mat ℚ) (y : List ℚ),
      (LogisticRegressor.train sig cE ⟨p1, gd⟩ X y).parameters
        = (LogisticRegressor.train sig cE ⟨p2, gd⟩ X y).parameters
      ∧ (LogisticRegressor.train sig cE ⟨p1, gd⟩ X y).parameters
        = some (gd.optimize (fun p => LogisticRegressor.compute_grad sig cE p
            ((Mat.ones X.rows 1).hcat X) y)
            (List.replicate ((Mat.ones X.rows 1).hcat X).cols ((1 : ℚ) / 2))))
    ∧ (∀ (sh : ℕ → List ℕ → List ℕ) (net : NeuralNet ℚ) (X T : Mat ℚ),
        (NeuralNet.train sh net X T).weights
          = net.gd.optimize sh (fun p Xb Tb => net.compute_grad p Xb Tb) net.weights X T) :=
  ⟨fun _ _ _ _ _ _ _ => ⟨rfl, rfl⟩, fun _ _ _ _ => rfl⟩

/-- C3 counterexample: with topology `[1, 1]`, a correctly shaped input but
a target with 2 columns, the checked gradient evaluation passes the only
assert of the code (`inputs.cols == layer_sizes[0]`), runs the whole forward
propagation, and fails only inside a matrix operation of backpropagation
(`.matDim`, here the element-wise cost gradient) — not with a boundary-level
dimension error (`.dimAssert`), contradicting the claim that target-shape
mismatches are reported at the boundary of train before any gradient work. -/
theorem c3_counterexample :
    compute_gradE critEQ [1, 1] [0, 0] (⟨1, 1, [1]⟩ : Mat ℚ) (⟨1, 2, [1, 1]⟩ : Mat ℚ)
      = .error .matDim := by
  with_unfolding_all rfl

/-- C3 amended: the only shape check the network code itself performs is the
assert at the top of each `compute_grad` call: when the input column count
differs from the first topology entry, the checked gradient evaluation fails
with exactly the boundary assert error before any propagation or gradient
work.  Target-column and row mismatches are not checked there; they surface
(if at all) as dimension errors inside matrix operations during propagation,
and `train` itself validates nothing. -/
theorem c3_input_cols_assert (c : CriterionE α) (topo : List ℕ) (w : List α) (X T : Mat α)
    (h : X.cols ≠ topo.getD 0 0) :
    compute_gradE c topo w X T = .error .dimAssert := by
  rw [compute_gradE, if_neg h]

/-- Witness for `c3_input_cols_assert`: the spec's own scenario — topology
`[3, 2]` and an input with 2 columns. -/
theorem c3_witness :
    ((⟨1, 2, [1, 1]⟩ : Mat ℚ).cols ≠ ([3, 2] : List ℕ).getD 0 0)
    ∧ compute_gradE critEQ [3, 2] (List.replicate 8 0) (⟨1, 2, [1, 1]⟩ : Mat ℚ)
        (⟨1, 2, [1, 1]⟩ : Mat ℚ) = .error .dimAssert :=
  ⟨by decide, c3_input_cols_assert critEQ [3, 2] (List.replicate 8 0) _ _ (by decide)⟩

end RustyMachine
